import Mathlib

/-!
Verification of the SM4 / SM4-GCM implementation.

This file embeds the Python sources `sm4_basic.py`, `sm4_optimized.py` and
`sm4_gcm.py` as Lean definitions.  Machine words are modelled as `Nat` with
the masks that the Python code itself applies (`& 0xFFFFFFFF`, `& 0xFF`, ...);
byte strings are `List Nat` whose elements are the byte values; fallible
operations (Python exceptions) are modelled with `Except`.
-/

/-- Substitution table of `sm4_basic.py` (`self.Sbox`), transcribed verbatim.
Note that it deviates from the GB/T 32907-2016 standard table from index
109 (0x6d) onwards and is not a permutation of 0..255. -/
def Sbox : List Nat := [
  0xd6, 0x90, 0xe9, 0xfe, 0xcc, 0xe1, 0x3d, 0xb7,
  0x16, 0xb6, 0x14, 0xc2, 0x28, 0xfb, 0x2c, 0x05,
  0x2b, 0x67, 0x9a, 0x76, 0x2a, 0xbe, 0x04, 0xc3,
  0xaa, 0x44, 0x13, 0x26, 0x49, 0x86, 0x06, 0x99,
  0x9c, 0x42, 0x50, 0xf4, 0x91, 0xef, 0x98, 0x7a,
  0x33, 0x54, 0x0b, 0x43, 0xed, 0xcf, 0xac, 0x62,
  0xe4, 0xb3, 0x1c, 0xa9, 0xc9, 0x08, 0xe8, 0x95,
  0x80, 0xdf, 0x94, 0xfa, 0x75, 0x8f, 0x3f, 0xa6,
  0x47, 0x07, 0xa7, 0xfc, 0xf3, 0x73, 0x17, 0xba,
  0x83, 0x59, 0x3c, 0x19, 0xe6, 0x85, 0x4f, 0xa8,
  0x68, 0x6b, 0x81, 0xb2, 0x71, 0x64, 0xda, 0x8b,
  0xf8, 0xeb, 0x0f, 0x4b, 0x70, 0x56, 0x9d, 0x35,
  0x1e, 0x24, 0x0e, 0x5e, 0x63, 0x58, 0xd1, 0xa2,
  0x25, 0x22, 0x7c, 0x3b, 0x01, 0x0d, 0x2d, 0x02,
  0x1f, 0x55, 0x82, 0xd5, 0x40, 0xc7, 0x31, 0xa1,
  0x74, 0x03, 0xf7, 0xf2, 0xce, 0xf9, 0x61, 0x15,
  0xa0, 0x38, 0xe0, 0x41, 0x7f, 0x00, 0x2e, 0xee,
  0xb8, 0x56, 0x0c, 0xbc, 0xd2, 0x79, 0x20, 0x9f,
  0xb4, 0x5b, 0x6a, 0xcb, 0xbe, 0x39, 0x4a, 0x4c,
  0x58, 0x27, 0x31, 0xd6, 0x1e, 0x14, 0x6c, 0x48,
  0x97, 0xc2, 0x0a, 0xf1, 0x6e, 0x3d, 0x29, 0x2b,
  0x07, 0x5b, 0xbb, 0x43, 0x96, 0x42, 0x06, 0x8f,
  0x0c, 0x7d, 0x37, 0x21, 0x12, 0x7a, 0x60, 0x59,
  0xcb, 0xcc, 0x83, 0x3e, 0x0b, 0x49, 0x03, 0xf0,
  0x13, 0x8a, 0x9d, 0x81, 0x5f, 0xdb, 0xa4, 0x45,
  0x9b, 0x73, 0x28, 0x20, 0x95, 0x66, 0x94, 0x3b,
  0x09, 0xe3, 0x6f, 0x57, 0x44, 0x5c, 0x36, 0x02,
  0xe0, 0x01, 0x11, 0x72, 0x90, 0xd8, 0x84, 0x10,
  0x87, 0xec, 0x1f, 0x88, 0x05, 0x5a, 0x65, 0x89,
  0x51, 0x92, 0x1c, 0x75, 0xca, 0x1d, 0x04, 0x2f,
  0x2a, 0x50, 0x86, 0x9a, 0x1b, 0x7b, 0x46, 0x47,
  0x98, 0xa3, 0x6d, 0x23, 0x0f, 0x5e, 0x7e, 0xc1]

/-- System parameter FK of `sm4_basic.py` (`self.FK`). -/
def FK : List Nat := [0xA3B1BAC6, 0x56AA3350, 0x677D9197, 0xB27022DC]

/-- Round constants CK of `sm4_basic.py` (`self.CK`). -/
def CK : List Nat := [
  0x00070e15, 0x1c232a31, 0x383f464d, 0x545b6269,
  0x70777e85, 0x8c939aa1, 0xa8afb6bd, 0xc4cbd2d9,
  0xe0e7eef5, 0xfc030a11, 0x181f262d, 0x343b4249,
  0x50575e65, 0x6c737a81, 0x888f969d, 0xa4abb2b9,
  0xc0c7ced5, 0xdce3eaf1, 0xf8ff060d, 0x141b2229,
  0x30373e45, 0x4c535a61, 0x686f767d, 0x848b9299,
  0xa0a7aeb5, 0xbcc3cad1, 0xd8dfe6ed, 0xf4fb0209,
  0x10171e25, 0x2c333a41, 0x484f565d, 0x646b7279]

/-- `SM4._rotate_left`: `((x << n) & 0xFFFFFFFF) | ((x >> (32 - n)) & 0xFFFFFFFF)`. -/
def rotateLeft (x n : Nat) : Nat :=
  ((x <<< n) &&& 0xFFFFFFFF) ||| ((x >>> (32 - n)) &&& 0xFFFFFFFF)

/-- `SM4._sbox`: `self.Sbox[x]` (indices used by the code are always < 256). -/
def sbox (x : Nat) : Nat := Sbox.getD x 0

/-- Linear transform `L` shared by `SM4._t_function` and the T-table
precomputation: `x ^ (x <<< 2) ^ (x <<< 10) ^ (x <<< 18) ^ (x <<< 24)`
with `<<<` the 32-bit rotation above. -/
def linearL (x : Nat) : Nat :=
  x ^^^ rotateLeft x 2 ^^^ rotateLeft x 10 ^^^ rotateLeft x 18 ^^^ rotateLeft x 24

/-- `SM4._t_function` of `sm4_basic.py`: substitute each of the four bytes via
the substitution table, recombine, and apply the linear transform `L`. -/
def tFunction (x : Nat) : Nat :=
  let x0 := sbox ((x >>> 24) &&& 0xFF)
  let x1 := sbox ((x >>> 16) &&& 0xFF)
  let x2 := sbox ((x >>> 8) &&& 0xFF)
  let x3 := sbox (x &&& 0xFF)
  linearL ((x0 <<< 24) ||| (x1 <<< 16) ||| (x2 <<< 8) ||| x3)

/-- Entry `i` of table `pos` built by `SM4Optimized._precompute_tables`:
`val = sbox(i) << shift(pos)` followed by `val ^= rotl(val,2) ^ rotl(val,10)
^ rotl(val,18) ^ rotl(val,24)`, i.e. `linearL (sbox i <<< shift pos)`, with
`shift` = 24, 16, 8, 0 for positions 0..3. -/
def Ttable (pos i : Nat) : Nat :=
  match pos with
  | 0 => linearL (sbox i <<< 24)
  | 1 => linearL (sbox i <<< 16)
  | 2 => linearL (sbox i <<< 8)
  | _ => linearL (sbox i)

/-- `SM4Optimized._t_function`: four table lookups XORed together. -/
def tFunctionOpt (x : Nat) : Nat :=
  Ttable 0 ((x >>> 24) &&& 0xFF) ^^^ Ttable 1 ((x >>> 16) &&& 0xFF) ^^^
    Ttable 2 ((x >>> 8) &&& 0xFF) ^^^ Ttable 3 (x &&& 0xFF)

/-- State of the four 32-bit registers `X[0..3]` (resp. `K[0..3]`). -/
structure W4 where
  a : Nat
  b : Nat
  c : Nat
  d : Nat
deriving DecidableEq

/-- One round of `SM4.encrypt_block` / `decrypt_block` / `_generate_round_keys`:
`X[0],X[1],X[2],X[3] = X[1],X[2],X[3], X[0] ^ t(X[1]^X[2]^X[3]^rk)`,
with the dispatched `self._t_function` passed as the parameter `t`. -/
def roundStep (t : Nat → Nat) (rk : Nat) (X : W4) : W4 :=
  ⟨X.b, X.c, X.d, X.a ^^^ t (X.b ^^^ X.c ^^^ X.d ^^^ rk)⟩

/-- Word `i` read from a byte string:
`(b[4i] << 24) | (b[4i+1] << 16) | (b[4i+2] << 8) | b[4i+3]`. -/
def word (blk : List Nat) (i : Nat) : Nat :=
  (blk.getD (4 * i) 0 <<< 24) ||| (blk.getD (4 * i + 1) 0 <<< 16) |||
    (blk.getD (4 * i + 2) 0 <<< 8) ||| blk.getD (4 * i + 3) 0

/-- The four 32-bit words extracted from a 16-byte block (the `X = [...]`
loop of `encrypt_block` / `decrypt_block`, and `K` of the key schedule). -/
def wordsOf (blk : List Nat) : W4 := ⟨word blk 0, word blk 1, word blk 2, word blk 3⟩

/-- The local 128-bit value `(X[3] << 96) | (X[2] << 64) | (X[1] << 32) | X[0]`
(the `ciphertext` / `plaintext` integer of `encrypt_block` / `decrypt_block`,
which packs the registers in reverse order). -/
def pack128 (X : W4) : Nat := (X.d <<< 96) ||| (X.c <<< 64) ||| (X.b <<< 32) ||| X.a

/-- Final packing of `encrypt_block` / `decrypt_block`: the sixteen byte
extractions `(c >> s) & 0xFF` of the 128-bit value for `s` = 120, ..., 8, 0. -/
def bytesOut (X : W4) : List Nat :=
  [(pack128 X >>> 120) &&& 0xFF, (pack128 X >>> 112) &&& 0xFF,
   (pack128 X >>> 104) &&& 0xFF, (pack128 X >>> 96) &&& 0xFF,
   (pack128 X >>> 88) &&& 0xFF, (pack128 X >>> 80) &&& 0xFF,
   (pack128 X >>> 72) &&& 0xFF, (pack128 X >>> 64) &&& 0xFF,
   (pack128 X >>> 56) &&& 0xFF, (pack128 X >>> 48) &&& 0xFF,
   (pack128 X >>> 40) &&& 0xFF, (pack128 X >>> 32) &&& 0xFF,
   (pack128 X >>> 24) &&& 0xFF, (pack128 X >>> 16) &&& 0xFF,
   (pack128 X >>> 8) &&& 0xFF, pack128 X &&& 0xFF]

/-- Reversal `(X0,X1,X2,X3) ↦ (X3,X2,X1,X0)` of the register state, the
"R" reverse transform applied by the packing step. -/
def revW (X : W4) : W4 := ⟨X.d, X.c, X.b, X.a⟩

/-- `SM4._generate_round_keys`, parameterised by the dispatched
`self._t_function`: the key words are XORed with FK, then 32 iterations of
`rk = K[0] ^ t(K[1]^K[2]^K[3]^CK[i])` with the register shifting left. -/
def generateRoundKeysT (t : Nat → Nat) (key : List Nat) : List Nat :=
  let K0 : W4 := ⟨word key 0 ^^^ FK.getD 0 0, word key 1 ^^^ FK.getD 1 0,
                  word key 2 ^^^ FK.getD 2 0, word key 3 ^^^ FK.getD 3 0⟩
  ((List.range 32).foldl (fun (st : W4 × List Nat) i =>
      let rk := st.1.a ^^^ t (st.1.b ^^^ st.1.c ^^^ st.1.d ^^^ CK.getD i 0)
      (⟨st.1.b, st.1.c, st.1.d, rk⟩, st.2 ++ [rk])) (K0, [])).2

/-- Core of `SM4.encrypt_block` on a 16-byte block (the `len != 16` branch of
the Python code raises `ValueError`; theorems about this definition therefore
carry the corresponding length hypothesis): 32 rounds
`X[0],...,X[3] = X[1],X[2],X[3], X[0] ^ t(X[1]^X[2]^X[3]^round_keys[i])`
followed by the reverse transform and byte packing. -/
def encryptBlockT (t : Nat → Nat) (rks : List Nat) (blk : List Nat) : List Nat :=
  bytesOut ((List.range 32).foldl (fun X i => roundStep t (rks.getD i 0) X) (wordsOf blk))

/-- Core of `SM4.decrypt_block`: identical to encryption but the round at
index `i` uses `round_keys[31 - i]`. -/
def decryptBlockT (t : Nat → Nat) (rks : List Nat) (blk : List Nat) : List Nat :=
  bytesOut ((List.range 32).foldl (fun X i => roundStep t (rks.getD (31 - i) 0) X) (wordsOf blk))

/-- `SM4(key).encrypt_block(blk)` for the plain class of `sm4_basic.py`:
round keys and rounds both use the basic `_t_function`. -/
def encryptBlock (key blk : List Nat) : List Nat :=
  encryptBlockT tFunction (generateRoundKeysT tFunction key) blk

/-- `SM4(key).decrypt_block(blk)` for the plain class of `sm4_basic.py`. -/
def decryptBlock (key blk : List Nat) : List Nat :=
  decryptBlockT tFunction (generateRoundKeysT tFunction key) blk

/-- `SM4Optimized(key).encrypt_block(blk)` as the T-table subclass intends it:
the inherited `encrypt_block` body with `self._t_function` dispatched to the
T-table lookup (both in the key schedule and in the rounds).  Note that the
actual Python constructor never reaches this state: `SM4Basic.__init__` calls
`self._generate_round_keys()`, whose dispatched `_t_function` reads
`self.T_table` before `_precompute_tables()` has created it, so
`SM4Optimized(key)` raises `AttributeError` for every key. -/
def encryptBlockOpt (key blk : List Nat) : List Nat :=
  encryptBlockT tFunctionOpt (generateRoundKeysT tFunctionOpt key) blk

/-- Transform invoked at the key-schedule call site `sm4_basic.py` line 97
(`rk = K[0] ^ self._t_function(K[1] ^ K[2] ^ K[3] ^ self.CK[i])`): the method
resolved there is the very `_t_function` that `encrypt_block` uses; this
definition transcribes that resolved body. -/
def roundKeyTransform (x : Nat) : Nat :=
  let x0 := sbox ((x >>> 24) &&& 0xFF)
  let x1 := sbox ((x >>> 16) &&& 0xFF)
  let x2 := sbox ((x >>> 8) &&& 0xFF)
  let x3 := sbox (x &&& 0xFF)
  linearL ((x0 <<< 24) ||| (x1 <<< 16) ||| (x2 <<< 8) ||| x3)

/-- `int.from_bytes(bs, byteorder='big')` on a byte string. -/
def bytesToNatBE (bs : List Nat) : Nat := bs.foldl (fun acc b => acc * 256 + b) 0

/-- `n.to_bytes(len, byteorder='big')` for `n < 2^(8*len)` (the call sites
either check for, or are proven to satisfy, that bound; Python raises
`OverflowError` otherwise). -/
def toBytesBE (len n : Nat) : List Nat :=
  (List.range len).map (fun i => (n >>> (8 * (len - 1 - i))) &&& 0xFF)

/-- Errors raised by the Python code, used as the `Except` error type:
`invalidKeyLength` = `ValueError` of `SM4.__init__`; `attributeError` =
the `AttributeError` raised when `SM4GCM._generate_initial_counter` reads
`self.H` (assigned only later in `__init__`); `overflowError` = the
`OverflowError` of `int.to_bytes(4)` in `_increment_counter`;
`invalidTagLength` and `authenticationFailure` = the two distinct
`ValueError`s of `SM4GCM.decrypt`. -/
inductive GCMError where
  | invalidKeyLength
  | attributeError
  | overflowError
  | invalidTagLength
  | authenticationFailure
deriving DecidableEq, Repr

/-- `SM4GCM._galois_multiply`: bit-by-bit multiplication in GF(2^128) with
`p = 0x87 | (1 << 128)`, iterating `i` from 127 down to 0. -/
def galoisMultiply (x h : Nat) : Nat :=
  (List.range 128).foldl (fun y k =>
    let i := 127 - k
    let y1 := y <<< 1
    let y2 := if (x >>> i) &&& 1 ≠ 0 then y1 ^^^ h else y1
    if y2 >>> 128 ≠ 0 then y2 ^^^ (0x87 ||| (1 <<< 128)) else y2) 0

/-- Zero-padding of a chunk to 16 bytes inside `SM4GCM._ghash`
(`if len(block) < 16: block += b'\x00' * (16 - len(block))`). -/
def padBlock (chunk : List Nat) : List Nat :=
  if chunk.length < 16 then chunk ++ List.replicate (16 - chunk.length) 0 else chunk

/-- The 16-byte-chunking loops of `SM4GCM._ghash`
(`for i in range(0, len(data), 16)`), each padded chunk read as a big-endian
128-bit integer. -/
def toBlocks (data : List Nat) : List Nat :=
  if h : data = [] then []
  else bytesToNatBE (padBlock (data.take 16)) :: toBlocks (data.drop 16)
termination_by data.length
decreasing_by
  simp only [List.length_drop]
  have : 0 < data.length := List.length_pos.mpr h
  omega

/-- `SM4GCM._ghash(auth_data, ciphertext, H)`: blocks of the auth data, blocks
of the ciphertext, then the length block `(len(auth)*8) << 64 | len(ct)*8`,
folded through `y = gmul(y ^ block, h)` starting from 0. -/
def ghash (authData ciphertext H : List Nat) : List Nat :=
  let blocks := toBlocks authData ++ toBlocks ciphertext ++
    [((authData.length * 8) <<< 64) ||| (ciphertext.length * 8)]
  let h := bytesToNatBE H
  toBytesBE 16 (blocks.foldl (fun y b => galoisMultiply (y ^^^ b) h) 0)

/-- `SM4GCM._increment_counter`: read `counter[12:16]` as a big-endian
integer, add one, and re-encode with `to_bytes(4, 'big')` — which raises
`OverflowError` when the incremented value does not fit in 32 bits, so the
counter does *not* wrap at `0xFFFFFFFF`. -/
def incrementCounter (counter : List Nat) : Except GCMError (List Nat) :=
  let v := bytesToNatBE ((counter.drop 12).take 4)
  if v + 1 < 2 ^ 32 then .ok (counter.take 12 ++ toBytesBE 4 (v + 1))
  else .error .overflowError

/-- Session state built by `SM4GCM.__init__`: the SM4 round keys of the
embedded cipher instance, the nonce, the configured tag length, the initial
counter and the hash subkey `H`. -/
structure GCMState where
  rks : List Nat
  nonce : List Nat
  tagLength : Nat
  initialCounter : List Nat
  H : List Nat
deriving DecidableEq

/-- `SM4GCM.__init__(key, nonce, tag_length)` with an explicit nonce.  Its
first statement, `self.sm4 = SM4Optimized(key)` (`sm4_gcm.py:15`), runs the
embedded `SM4` constructor: it raises `ValueError` when the key is not 16
bytes, and otherwise calls `self._generate_round_keys()`, whose dynamically
dispatched `self._t_function` is `SM4Optimized._t_function`, which reads
`self.T_table` before `_precompute_tables()` has created it.  Construction
therefore raises `AttributeError` for *every* 16-byte key and *every* nonce,
and none of the later statements (tag length, nonce, counter, `H`) ever
execute — in particular the `self._ghash(self.nonce, b'', self.H)` call at
line 37, which reads `self.H` before its assignment at line 28 and would
raise `AttributeError` for non-12-byte nonces even if the `T_table` crash
were fixed.  No `GCMState` is ever produced; `gcmEncrypt`/`gcmDecrypt`
below embed the `encrypt`/`decrypt` method bodies over an arbitrary
session state. -/
def gcmInit (key nonce : List Nat) (tagLength : Nat) : Except GCMError GCMState :=
  if key.length ≠ 16 then .error .invalidKeyLength
  else .error .attributeError

/-- The CTR loops shared by `SM4GCM.encrypt` and `SM4GCM.decrypt`
(`for i in range(0, len(data), 16)`): encrypt the counter, XOR the (up to 16
byte) chunk with the keystream via `zip` (which truncates to the chunk
length), then increment the counter — the increment can raise. -/
def ctrLoop (rks counter data : List Nat) : Except GCMError (List Nat) :=
  if h : data = [] then .ok []
  else
    let keystream := encryptBlockT tFunctionOpt rks counter
    let outBlock := List.zipWith (fun b k => b ^^^ k) (data.take 16) keystream
    match incrementCounter counter with
    | .error e => .error e
    | .ok counter2 =>
      match ctrLoop rks counter2 (data.drop 16) with
      | .error e => .error e
      | .ok rest => .ok (outBlock ++ rest)
termination_by data.length
decreasing_by
  simp only [List.length_drop]
  have : 0 < data.length := List.length_pos.mpr h
  omega

/-- `SM4GCM._constant_time_compare`: length check, then OR-fold of the
bytewise XORs compared against 0. -/
def constantTimeCompare (a b : List Nat) : Bool :=
  if a.length ≠ b.length then false
  else ((List.zipWith (fun x y => x ^^^ y) a b).foldl (fun r z => r ||| z) 0) == 0

/-- `SM4GCM.encrypt(plaintext, auth_data)`: CTR over the plaintext starting
from the (unincremented) initial counter, then
`tag = ghash(auth_data, ciphertext, H) XOR encrypt_block(initial_counter)`
truncated to the configured tag length. -/
def gcmEncrypt (st : GCMState) (plaintext authData : List Nat) :
    Except GCMError (List Nat × List Nat) :=
  match ctrLoop st.rks st.initialCounter plaintext with
  | .error e => .error e
  | .ok ciphertext =>
    let tag := ghash authData ciphertext st.H
    let tagEncrypted := encryptBlockT tFunctionOpt st.rks st.initialCounter
    let tag2 := List.zipWith (fun t te => t ^^^ te) tag tagEncrypted
    .ok (ciphertext, tag2.take st.tagLength)

/-- `SM4GCM.decrypt(ciphertext, tag, auth_data)`: tag-length check first,
then the supplied tag is XORed with `encrypt_block(initial_counter)`,
zero-padded to 16 bytes if shorter, compared (constant-time) against
`ghash(auth_data, ciphertext, H)`; only on a match is the CTR decryption
of the ciphertext performed. -/
def gcmDecrypt (st : GCMState) (ciphertext tag authData : List Nat) :
    Except GCMError (List Nat) :=
  if tag.length ≠ st.tagLength then .error .invalidTagLength
  else
    let tagEncrypted := encryptBlockT tFunctionOpt st.rks st.initialCounter
    let tagDecrypted := List.zipWith (fun t te => t ^^^ te) tag tagEncrypted
    let tagDecrypted2 := if tagDecrypted.length < 16
      then tagDecrypted ++ List.replicate (16 - tagDecrypted.length) 0
      else tagDecrypted
    let computedTag := ghash authData ciphertext st.H
    if constantTimeCompare tagDecrypted2 computedTag then
      ctrLoop st.rks st.initialCounter ciphertext
    else .error .authenticationFailure

/-! ### Bit-manipulation toolkit -/

theorem and_shiftLeft_eq_zero {x : Nat} (z s : Nat) (hx : x < 2 ^ s) :
    (z <<< s) &&& x = 0 := by
  apply Nat.eq_of_testBit_eq
  intro i
  simp only [Nat.testBit_and, Nat.testBit_shiftLeft, Nat.zero_testBit]
  by_cases h : s ≤ i
  · have hxi : x.testBit i = false :=
      Nat.testBit_lt_two_pow (lt_of_lt_of_le hx (Nat.pow_le_pow_right (by norm_num) h))
    simp [hxi]
  · simp [h]

theorem or_eq_xor_of_and_eq_zero {a b : Nat} (h : a &&& b = 0) :
    a ||| b = a ^^^ b := by
  apply Nat.eq_of_testBit_eq
  intro i
  have hi := congrArg (fun t => t.testBit i) h
  simp only [Nat.testBit_and, Nat.zero_testBit] at hi
  simp only [Nat.testBit_or, Nat.testBit_xor]
  cases hab : a.testBit i <;> cases hbb : b.testBit i <;> simp_all

theorem or_eq_add_of_low {A B k : Nat} (hA : A &&& (2 ^ k - 1) = 0) (hB : B < 2 ^ k) :
    A ||| B = A + B := by
  have hm := Nat.and_pow_two_sub_one_eq_mod A k
  have hmod : A % 2 ^ k = 0 := by omega
  have hA2 : A = 2 ^ k * (A / 2 ^ k) := by
    have := Nat.div_add_mod A (2 ^ k)
    omega
  rw [hA2]
  exact (Nat.mul_add_lt_is_or hB _).symm

theorem and_eq_zero_of_low {A B k : Nat} (hA : A &&& (2 ^ k - 1) = 0) (hB : B < 2 ^ k) :
    A &&& B = 0 := by
  apply Nat.eq_of_testBit_eq
  intro i
  have hi := congrArg (fun t => t.testBit i) hA
  simp only [Nat.testBit_and, Nat.zero_testBit, Nat.testBit_two_pow_sub_one] at hi
  simp only [Nat.testBit_and, Nat.zero_testBit]
  by_cases h : i < k
  · simp [h] at hi
    simp [hi]
  · have : B.testBit i = false :=
      Nat.testBit_lt_two_pow (lt_of_lt_of_le hB (Nat.pow_le_pow_right (by norm_num) (by omega)))
    simp [this]

theorem shiftLeft_xor_distrib (a b n : Nat) :
    (a ^^^ b) <<< n = (a <<< n) ^^^ (b <<< n) := by
  apply Nat.eq_of_testBit_eq
  intro i
  simp only [Nat.testBit_xor, Nat.testBit_shiftLeft]
  cases decide (n ≤ i) <;> simp

theorem shiftRight_xor_distrib (a b n : Nat) :
    (a ^^^ b) >>> n = (a >>> n) ^^^ (b >>> n) := by
  apply Nat.eq_of_testBit_eq
  intro i
  simp

theorem shiftLeft_and_low_eq_zero (z : Nat) {k s : Nat} (hks : k ≤ s) :
    (z <<< s) &&& (2 ^ k - 1) = 0 :=
  and_shiftLeft_eq_zero z s (lt_of_lt_of_le (Nat.sub_lt (Nat.two_pow_pos k) (by norm_num))
    (Nat.pow_le_pow_right (by norm_num) hks))

theorem xor_left_comm (a b c : Nat) : a ^^^ (b ^^^ c) = b ^^^ (a ^^^ c) := by
  rw [← Nat.xor_assoc, Nat.xor_comm a b, Nat.xor_assoc]

theorem rotateLeft_lt (x n : Nat) : rotateLeft x n < 2 ^ 32 := by
  unfold rotateLeft
  apply Nat.or_lt_two_pow <;>
    exact lt_of_le_of_lt Nat.and_le_right (by norm_num)

theorem rotateLeft_xor (n : Nat) (hn0 : 0 < n) (hn : n < 32) {a b : Nat}
    (ha : a < 2 ^ 32) (hb : b < 2 ^ 32) :
    rotateLeft (a ^^^ b) n = rotateLeft a n ^^^ rotateLeft b n := by
  have hM : (0xFFFFFFFF : Nat) = 2 ^ 32 - 1 := by norm_num
  unfold rotateLeft
  rw [hM, shiftLeft_xor_distrib, shiftRight_xor_distrib,
    Nat.and_xor_distrib_right, Nat.and_xor_distrib_right]
  have hpow : (2 : Nat) ^ (32 - n) * 2 ^ n = 2 ^ 32 := by
    rw [← pow_add]
    congr 1
    omega
  have hdiv : ∀ {x : Nat}, x < 2 ^ 32 → (x >>> (32 - n)) &&& (2 ^ 32 - 1) < 2 ^ n := by
    intro x hx
    apply lt_of_le_of_lt Nat.and_le_left
    rw [Nat.shiftRight_eq_div_pow]
    exact Nat.div_lt_of_lt_mul (by omega)
  have hB1 := hdiv ha
  have hB2 := hdiv hb
  have hlowa : (a <<< n) &&& (2 ^ 32 - 1) &&& (2 ^ n - 1) = 0 := by
    rw [Nat.and_assoc]
    exact and_shiftLeft_eq_zero a n (lt_of_le_of_lt Nat.and_le_right
      (Nat.sub_lt (Nat.two_pow_pos n) (by norm_num)))
  have hlowb : (b <<< n) &&& (2 ^ 32 - 1) &&& (2 ^ n - 1) = 0 := by
    rw [Nat.and_assoc]
    exact and_shiftLeft_eq_zero b n (lt_of_le_of_lt Nat.and_le_right
      (Nat.sub_lt (Nat.two_pow_pos n) (by norm_num)))
  have hlow : ((a <<< n) &&& (2 ^ 32 - 1) ^^^ (b <<< n) &&& (2 ^ 32 - 1)) &&& (2 ^ n - 1) = 0 := by
    rw [Nat.and_xor_distrib_right, hlowa, hlowb]
    rfl
  rw [or_eq_xor_of_and_eq_zero (and_eq_zero_of_low hlow (Nat.xor_lt_two_pow hB1 hB2)),
    or_eq_xor_of_and_eq_zero (and_eq_zero_of_low hlowa hB1),
    or_eq_xor_of_and_eq_zero (and_eq_zero_of_low hlowb hB2)]
  simp only [Nat.xor_assoc, Nat.xor_comm, xor_left_comm]

theorem linearL_lt {x : Nat} (hx : x < 2 ^ 32) : linearL x < 2 ^ 32 := by
  unfold linearL
  exact Nat.xor_lt_two_pow (Nat.xor_lt_two_pow (Nat.xor_lt_two_pow
    (Nat.xor_lt_two_pow hx (rotateLeft_lt x 2)) (rotateLeft_lt x 10))
    (rotateLeft_lt x 18)) (rotateLeft_lt x 24)

theorem linearL_xor {a b : Nat} (ha : a < 2 ^ 32) (hb : b < 2 ^ 32) :
    linearL (a ^^^ b) = linearL a ^^^ linearL b := by
  unfold linearL
  rw [rotateLeft_xor 2 (by norm_num) (by norm_num) ha hb,
    rotateLeft_xor 10 (by norm_num) (by norm_num) ha hb,
    rotateLeft_xor 18 (by norm_num) (by norm_num) ha hb,
    rotateLeft_xor 24 (by norm_num) (by norm_num) ha hb]
  simp only [Nat.xor_assoc, Nat.xor_comm, xor_left_comm]

set_option maxRecDepth 20000 in
theorem sbox_lt (x : Nat) : sbox x < 256 := by
  unfold sbox
  by_cases h : x < 256
  · have hall : ∀ y, y < 256 → Sbox.getD y 0 < 256 := by decide
    exact hall x h
  · rw [List.getD_eq_default]
    · norm_num
    · have hlen : Sbox.length = 256 := by rfl
      omega

theorem sbox_lt_pow (x : Nat) : sbox x < 2 ^ 8 := by
  simpa using sbox_lt x

theorem sbox_shiftLeft_lt (y s : Nat) : sbox y <<< s < 2 ^ (8 + s) :=
  Nat.shiftLeft_lt (sbox_lt_pow y)

theorem tFunction_lt (x : Nat) : tFunction x < 2 ^ 32 := by
  unfold tFunction
  apply linearL_lt
  have h0 : sbox ((x >>> 24) &&& 0xFF) <<< 24 < 2 ^ 32 := by
    simpa using sbox_shiftLeft_lt ((x >>> 24) &&& 0xFF) 24
  have h1 : sbox ((x >>> 16) &&& 0xFF) <<< 16 < 2 ^ 32 := by
    have := sbox_shiftLeft_lt ((x >>> 16) &&& 0xFF) 16
    exact lt_of_lt_of_le (by simpa using this) (by norm_num)
  have h2 : sbox ((x >>> 8) &&& 0xFF) <<< 8 < 2 ^ 32 := by
    have := sbox_shiftLeft_lt ((x >>> 8) &&& 0xFF) 8
    exact lt_of_lt_of_le (by simpa using this) (by norm_num)
  have h3 : sbox (x &&& 0xFF) < 2 ^ 32 :=
    lt_of_lt_of_le (sbox_lt_pow _) (by norm_num)
  exact Nat.or_lt_two_pow (Nat.or_lt_two_pow (Nat.or_lt_two_pow h0 h1) h2) h3

theorem Ttable_zero (i : Nat) : Ttable 0 i = linearL (sbox i <<< 24) := rfl

theorem Ttable_one (i : Nat) : Ttable 1 i = linearL (sbox i <<< 16) := rfl

theorem Ttable_two (i : Nat) : Ttable 2 i = linearL (sbox i <<< 8) := rfl

theorem Ttable_three (i : Nat) : Ttable 3 i = linearL (sbox i) := rfl

theorem tFunctionOpt_eq_tFunction (x : Nat) : tFunctionOpt x = tFunction x := by
  unfold tFunctionOpt tFunction
  rw [Ttable_zero, Ttable_one, Ttable_two, Ttable_three]
  have h0 := sbox_lt_pow ((x >>> 24) &&& 0xFF)
  have h1 := sbox_lt_pow ((x >>> 16) &&& 0xFF)
  have h2 := sbox_lt_pow ((x >>> 8) &&& 0xFF)
  have h3 := sbox_lt_pow (x &&& 0xFF)
  generalize sbox ((x >>> 24) &&& 0xFF) = s0 at h0 ⊢
  generalize sbox ((x >>> 16) &&& 0xFF) = s1 at h1 ⊢
  generalize sbox ((x >>> 8) &&& 0xFF) = s2 at h2 ⊢
  generalize sbox (x &&& 0xFF) = s3 at h3 ⊢
  dsimp only
  have hp1 : s1 <<< 16 < 2 ^ 24 := by simpa using Nat.shiftLeft_lt (m := 16) h1
  have hp2 : s2 <<< 8 < 2 ^ 16 := by simpa using Nat.shiftLeft_lt (m := 8) h2
  have hp3 : s3 < 2 ^ 8 := h3
  have h01 : (s0 <<< 24) &&& (s1 <<< 16) = 0 := and_shiftLeft_eq_zero s0 24 hp1
  have hlow2 : ((s0 <<< 24) ^^^ (s1 <<< 16)) &&& (2 ^ 16 - 1) = 0 := by
    rw [Nat.and_xor_distrib_right, shiftLeft_and_low_eq_zero s0 (by norm_num),
      shiftLeft_and_low_eq_zero s1 (by norm_num)]
    simp
  have h012 : ((s0 <<< 24) ^^^ (s1 <<< 16)) &&& (s2 <<< 8) = 0 :=
    and_eq_zero_of_low hlow2 hp2
  have hlow3 : ((s0 <<< 24) ^^^ (s1 <<< 16) ^^^ (s2 <<< 8)) &&& (2 ^ 8 - 1) = 0 := by
    rw [Nat.and_xor_distrib_right, Nat.and_xor_distrib_right,
      shiftLeft_and_low_eq_zero s0 (by norm_num),
      shiftLeft_and_low_eq_zero s1 (by norm_num),
      shiftLeft_and_low_eq_zero s2 (by norm_num)]
    simp
  have h0123 : ((s0 <<< 24) ^^^ (s1 <<< 16) ^^^ (s2 <<< 8)) &&& s3 = 0 :=
    and_eq_zero_of_low hlow3 hp3
  have hq0 : s0 <<< 24 < 2 ^ 32 := by simpa using Nat.shiftLeft_lt (m := 24) h0
  have hq1 : s1 <<< 16 < 2 ^ 32 := lt_of_lt_of_le hp1 (by norm_num)
  have hq2 : s2 <<< 8 < 2 ^ 32 := lt_of_lt_of_le hp2 (by norm_num)
  have hq3 : s3 < 2 ^ 32 := lt_of_lt_of_le hp3 (by norm_num)
  rw [or_eq_xor_of_and_eq_zero h01, or_eq_xor_of_and_eq_zero h012,
    or_eq_xor_of_and_eq_zero h0123,
    linearL_xor (Nat.xor_lt_two_pow (Nat.xor_lt_two_pow hq0 hq1) hq2) hq3,
    linearL_xor (Nat.xor_lt_two_pow hq0 hq1) hq2,
    linearL_xor hq0 hq1]

/-! ### Feistel structure: the 32 rounds with reversed keys invert encryption -/

theorem roundStep_conj (t : Nat → Nat) (k : Nat) (Z : W4) :
    roundStep t k (revW (roundStep t k Z)) = revW Z := by
  cases Z with
  | mk a b c d =>
    simp only [roundStep, revW, W4.mk.injEq]
    refine ⟨trivial, trivial, trivial, ?_⟩
    have harg : d ^^^ c ^^^ b ^^^ k = b ^^^ c ^^^ d ^^^ k := by
      simp only [Nat.xor_assoc, Nat.xor_comm, xor_left_comm]
    rw [harg, Nat.xor_cancel_right]

theorem foldl_rounds_rev (t : Nat → Nat) (ks : List Nat) : ∀ X : W4,
    ks.reverse.foldl (fun Y k => roundStep t k Y)
      (revW (ks.foldl (fun Y k => roundStep t k Y) X)) = revW X := by
  induction ks with
  | nil => intro X; simp
  | cons k ks ih =>
    intro X
    simp only [List.foldl_cons, List.reverse_cons, List.foldl_append]
    rw [ih (roundStep t k X)]
    simp only [List.foldl_cons, List.foldl_nil]
    exact roundStep_conj t k X

theorem map_range_rev {α : Type} (g : Nat → α) :
    ∀ n, (List.range n).map (fun i => g (n - 1 - i)) = ((List.range n).map g).reverse := by
  intro n
  induction n generalizing g with
  | zero => simp
  | succ n ih =>
    conv_lhs => rw [List.range_succ, List.map_append]
    conv_rhs => rw [List.range_succ_eq_map, List.map_cons, List.map_map, List.reverse_cons]
    have h1 : (List.range n).map (fun i => g (n + 1 - 1 - i))
        = (List.range n).map (fun i => (fun j => g (j + 1)) (n - 1 - i)) := by
      apply List.map_congr_left
      intro a ha
      have := List.mem_range.mp ha
      congr 1
      omega
    rw [h1, ih (fun j => g (j + 1))]
    have h2 : n + 1 - 1 - n = 0 := by omega
    simp only [List.map_cons, List.map_nil, h2]
    rfl

theorem encryptBlockT_eq_foldl (t : Nat → Nat) (rks blk : List Nat) :
    encryptBlockT t rks blk
      = bytesOut (((List.range 32).map (fun i => rks.getD i 0)).foldl
          (fun X k => roundStep t k X) (wordsOf blk)) := by
  unfold encryptBlockT
  rw [List.foldl_map]

theorem decryptBlockT_eq_foldl (t : Nat → Nat) (rks blk : List Nat) :
    decryptBlockT t rks blk
      = bytesOut ((((List.range 32).map (fun i => rks.getD i 0)).reverse).foldl
          (fun X k => roundStep t k X) (wordsOf blk)) := by
  unfold decryptBlockT
  rw [← map_range_rev (fun j => rks.getD j 0) 32, List.foldl_map]

theorem foldl_rounds_lt (t : Nat → Nat) (ht : ∀ x, t x < 2 ^ 32) (ks : List Nat) :
    ∀ X : W4, X.a < 2 ^ 32 → X.b < 2 ^ 32 → X.c < 2 ^ 32 → X.d < 2 ^ 32 →
      (ks.foldl (fun Y k => roundStep t k Y) X).a < 2 ^ 32 ∧
      (ks.foldl (fun Y k => roundStep t k Y) X).b < 2 ^ 32 ∧
      (ks.foldl (fun Y k => roundStep t k Y) X).c < 2 ^ 32 ∧
      (ks.foldl (fun Y k => roundStep t k Y) X).d < 2 ^ 32 := by
  induction ks with
  | nil => intro X h1 h2 h3 h4; exact ⟨h1, h2, h3, h4⟩
  | cons k ks ih =>
    intro X h1 h2 h3 h4
    simp only [List.foldl_cons]
    exact ih _ h2 h3 h4 (Nat.xor_lt_two_pow h1 (ht _))

/-! ### Packing identities between bytes and words -/

theorem ff_eq : (0xFF : Nat) = 2 ^ 8 - 1 := by norm_num

theorem byteMask_lt (x : Nat) : x &&& 0xFF < 256 :=
  lt_of_le_of_lt Nat.and_le_right (by norm_num)

theorem word_eq_add (b0 : Nat) {b1 b2 b3 : Nat} (h1 : b1 < 256) (h2 : b2 < 256)
    (h3 : b3 < 256) :
    (b0 <<< 24) ||| (b1 <<< 16) ||| (b2 <<< 8) ||| b3
      = b0 * 2 ^ 24 + b1 * 2 ^ 16 + b2 * 2 ^ 8 + b3 := by
  have h1p : b1 < 2 ^ 8 := by simpa using h1
  have h2p : b2 < 2 ^ 8 := by simpa using h2
  have h3p : b3 < 2 ^ 8 := by simpa using h3
  have hb1 : b1 <<< 16 < 2 ^ 24 := by simpa using Nat.shiftLeft_lt (m := 16) h1p
  have hb2 : b2 <<< 8 < 2 ^ 16 := by simpa using Nat.shiftLeft_lt (m := 8) h2p
  have c2 : ((b0 <<< 24) ||| (b1 <<< 16)) &&& (2 ^ 16 - 1) = 0 := by
    rw [Nat.and_distrib_right, shiftLeft_and_low_eq_zero b0 (by norm_num),
      shiftLeft_and_low_eq_zero b1 (by norm_num)]
    simp
  have c3 : ((b0 <<< 24) ||| (b1 <<< 16) ||| (b2 <<< 8)) &&& (2 ^ 8 - 1) = 0 := by
    rw [Nat.and_distrib_right, Nat.and_distrib_right,
      shiftLeft_and_low_eq_zero b0 (by norm_num),
      shiftLeft_and_low_eq_zero b1 (by norm_num),
      shiftLeft_and_low_eq_zero b2 (by norm_num)]
    simp
  rw [or_eq_add_of_low (k := 8) c3 h3p, or_eq_add_of_low (k := 16) c2 hb2,
    or_eq_add_of_low (k := 24) (shiftLeft_and_low_eq_zero b0 (by norm_num)) hb1,
    Nat.shiftLeft_eq, Nat.shiftLeft_eq, Nat.shiftLeft_eq]

theorem pack128_eq {w0 w1 w2 w3 : Nat} (h0 : w0 < 2 ^ 32) (h1 : w1 < 2 ^ 32)
    (h2 : w2 < 2 ^ 32) :
    (w3 <<< 96) ||| (w2 <<< 64) ||| (w1 <<< 32) ||| w0
      = w3 * 2 ^ 96 + w2 * 2 ^ 64 + w1 * 2 ^ 32 + w0 := by
  have hb2 : w2 <<< 64 < 2 ^ 96 := by simpa using Nat.shiftLeft_lt (m := 64) h2
  have hb1 : w1 <<< 32 < 2 ^ 64 := by simpa using Nat.shiftLeft_lt (m := 32) h1
  have c2 : ((w3 <<< 96) ||| (w2 <<< 64)) &&& (2 ^ 64 - 1) = 0 := by
    rw [Nat.and_distrib_right, shiftLeft_and_low_eq_zero w3 (by norm_num),
      shiftLeft_and_low_eq_zero w2 (by norm_num)]
    simp
  have c3 : ((w3 <<< 96) ||| (w2 <<< 64) ||| (w1 <<< 32)) &&& (2 ^ 32 - 1) = 0 := by
    rw [Nat.and_distrib_right, Nat.and_distrib_right,
      shiftLeft_and_low_eq_zero w3 (by norm_num),
      shiftLeft_and_low_eq_zero w2 (by norm_num),
      shiftLeft_and_low_eq_zero w1 (by norm_num)]
    simp
  rw [or_eq_add_of_low (k := 32) c3 h0, or_eq_add_of_low (k := 64) c2 hb1,
    or_eq_add_of_low (k := 96) (shiftLeft_and_low_eq_zero w3 (by norm_num)) hb2,
    Nat.shiftLeft_eq, Nat.shiftLeft_eq, Nat.shiftLeft_eq]

theorem wordsOf_bytesOut (X : W4) (h0 : X.a < 2 ^ 32) (h1 : X.b < 2 ^ 32)
    (h2 : X.c < 2 ^ 32) (h3 : X.d < 2 ^ 32) :
    wordsOf (bytesOut X) = revW X := by
  obtain ⟨a, b, c, d⟩ := X
  simp only at h0 h1 h2 h3
  have hpack : pack128 ⟨a, b, c, d⟩ = d * 2 ^ 96 + c * 2 ^ 64 + b * 2 ^ 32 + a := by
    show (d <<< 96) ||| (c <<< 64) ||| (b <<< 32) ||| a = _
    exact pack128_eq h0 h1 h2
  have hW : ∀ s : Nat, (pack128 ⟨a, b, c, d⟩ >>> s) &&& 0xFF
      = (d * 2 ^ 96 + c * 2 ^ 64 + b * 2 ^ 32 + a) / 2 ^ s % 2 ^ 8 := by
    intro s
    rw [hpack, ff_eq, Nat.and_pow_two_sub_one_eq_mod, Nat.shiftRight_eq_div_pow]
  unfold wordsOf revW
  simp only [W4.mk.injEq]
  refine ⟨?_, ?_, ?_, ?_⟩
  · show ((pack128 ⟨a, b, c, d⟩ >>> 120) &&& 0xFF) <<< 24 |||
        ((pack128 ⟨a, b, c, d⟩ >>> 112) &&& 0xFF) <<< 16 |||
        ((pack128 ⟨a, b, c, d⟩ >>> 104) &&& 0xFF) <<< 8 |||
        ((pack128 ⟨a, b, c, d⟩ >>> 96) &&& 0xFF) = d
    rw [word_eq_add _ (byteMask_lt _) (byteMask_lt _) (byteMask_lt _), hW, hW, hW, hW]
    norm_num
    omega
  · show ((pack128 ⟨a, b, c, d⟩ >>> 88) &&& 0xFF) <<< 24 |||
        ((pack128 ⟨a, b, c, d⟩ >>> 80) &&& 0xFF) <<< 16 |||
        ((pack128 ⟨a, b, c, d⟩ >>> 72) &&& 0xFF) <<< 8 |||
        ((pack128 ⟨a, b, c, d⟩ >>> 64) &&& 0xFF) = c
    rw [word_eq_add _ (byteMask_lt _) (byteMask_lt _) (byteMask_lt _), hW, hW, hW, hW]
    norm_num
    omega
  · show ((pack128 ⟨a, b, c, d⟩ >>> 56) &&& 0xFF) <<< 24 |||
        ((pack128 ⟨a, b, c, d⟩ >>> 48) &&& 0xFF) <<< 16 |||
        ((pack128 ⟨a, b, c, d⟩ >>> 40) &&& 0xFF) <<< 8 |||
        ((pack128 ⟨a, b, c, d⟩ >>> 32) &&& 0xFF) = b
    rw [word_eq_add _ (byteMask_lt _) (byteMask_lt _) (byteMask_lt _), hW, hW, hW, hW]
    norm_num
    omega
  · show ((pack128 ⟨a, b, c, d⟩ >>> 24) &&& 0xFF) <<< 24 |||
        ((pack128 ⟨a, b, c, d⟩ >>> 16) &&& 0xFF) <<< 16 |||
        ((pack128 ⟨a, b, c, d⟩ >>> 8) &&& 0xFF) <<< 8 |||
        (pack128 ⟨a, b, c, d⟩ &&& 0xFF) = a
    have hW0 : pack128 ⟨a, b, c, d⟩ &&& 0xFF
        = (d * 2 ^ 96 + c * 2 ^ 64 + b * 2 ^ 32 + a) % 2 ^ 8 := by
      rw [hpack, ff_eq, Nat.and_pow_two_sub_one_eq_mod]
    rw [word_eq_add _ (byteMask_lt _) (byteMask_lt _) (byteMask_lt _), hW, hW, hW, hW0]
    norm_num
    omega

theorem bytesOut_wordsOf (b0 b1 b2 b3 b4 b5 b6 b7 b8 b9 b10 b11 b12 b13 b14 b15 : Nat)
    (h0 : b0 < 256) (h1 : b1 < 256) (h2 : b2 < 256) (h3 : b3 < 256)
    (h4 : b4 < 256) (h5 : b5 < 256) (h6 : b6 < 256) (h7 : b7 < 256)
    (h8 : b8 < 256) (h9 : b9 < 256) (h10 : b10 < 256) (h11 : b11 < 256)
    (h12 : b12 < 256) (h13 : b13 < 256) (h14 : b14 < 256) (h15 : b15 < 256) :
    bytesOut (revW (wordsOf
        [b0, b1, b2, b3, b4, b5, b6, b7, b8, b9, b10, b11, b12, b13, b14, b15]))
      = [b0, b1, b2, b3, b4, b5, b6, b7, b8, b9, b10, b11, b12, b13, b14, b15] := by
  have hw0 : word [b0, b1, b2, b3, b4, b5, b6, b7, b8, b9, b10, b11, b12, b13, b14, b15] 0
      = b0 * 2 ^ 24 + b1 * 2 ^ 16 + b2 * 2 ^ 8 + b3 := by
    show (b0 <<< 24) ||| (b1 <<< 16) ||| (b2 <<< 8) ||| b3 = _
    exact word_eq_add b0 h1 h2 h3
  have hw1 : word [b0, b1, b2, b3, b4, b5, b6, b7, b8, b9, b10, b11, b12, b13, b14, b15] 1
      = b4 * 2 ^ 24 + b5 * 2 ^ 16 + b6 * 2 ^ 8 + b7 := by
    show (b4 <<< 24) ||| (b5 <<< 16) ||| (b6 <<< 8) ||| b7 = _
    exact word_eq_add b4 h5 h6 h7
  have hw2 : word [b0, b1, b2, b3, b4, b5, b6, b7, b8, b9, b10, b11, b12, b13, b14, b15] 2
      = b8 * 2 ^ 24 + b9 * 2 ^ 16 + b10 * 2 ^ 8 + b11 := by
    show (b8 <<< 24) ||| (b9 <<< 16) ||| (b10 <<< 8) ||| b11 = _
    exact word_eq_add b8 h9 h10 h11
  have hw3 : word [b0, b1, b2, b3, b4, b5, b6, b7, b8, b9, b10, b11, b12, b13, b14, b15] 3
      = b12 * 2 ^ 24 + b13 * 2 ^ 16 + b14 * 2 ^ 8 + b15 := by
    show (b12 <<< 24) ||| (b13 <<< 16) ||| (b14 <<< 8) ||| b15 = _
    exact word_eq_add b12 h13 h14 h15
  have hq0 : word [b0, b1, b2, b3, b4, b5, b6, b7, b8, b9, b10, b11, b12, b13, b14, b15] 0
      < 2 ^ 32 := by rw [hw0]; norm_num; omega
  have hq1 : word [b0, b1, b2, b3, b4, b5, b6, b7, b8, b9, b10, b11, b12, b13, b14, b15] 1
      < 2 ^ 32 := by rw [hw1]; norm_num; omega
  have hq2 : word [b0, b1, b2, b3, b4, b5, b6, b7, b8, b9, b10, b11, b12, b13, b14, b15] 2
      < 2 ^ 32 := by rw [hw2]; norm_num; omega
  have hq3 : word [b0, b1, b2, b3, b4, b5, b6, b7, b8, b9, b10, b11, b12, b13, b14, b15] 3
      < 2 ^ 32 := by rw [hw3]; norm_num; omega
  have hpack : pack128 (revW (wordsOf
      [b0, b1, b2, b3, b4, b5, b6, b7, b8, b9, b10, b11, b12, b13, b14, b15]))
      = word [b0, b1, b2, b3, b4, b5, b6, b7, b8, b9, b10, b11, b12, b13, b14, b15] 0 * 2 ^ 96
        + word [b0, b1, b2, b3, b4, b5, b6, b7, b8, b9, b10, b11, b12, b13, b14, b15] 1 * 2 ^ 64
        + word [b0, b1, b2, b3, b4, b5, b6, b7, b8, b9, b10, b11, b12, b13, b14, b15] 2 * 2 ^ 32
        + word [b0, b1, b2, b3, b4, b5, b6, b7, b8, b9, b10, b11, b12, b13, b14, b15] 3 := by
    show (word _ 0 <<< 96) ||| (word _ 1 <<< 64) ||| (word _ 2 <<< 32) ||| word _ 3 = _
    exact pack128_eq hq3 hq2 hq1
  rw [hw0, hw1, hw2, hw3] at hpack
  unfold bytesOut
  rw [ff_eq]
  simp only [Nat.and_pow_two_sub_one_eq_mod, Nat.shiftRight_eq_div_pow, hpack,
    List.cons.injEq, and_true]
  norm_num
  refine ⟨?_, ?_, ?_, ?_, ?_, ?_, ?_, ?_, ?_, ?_, ?_, ?_, ?_, ?_, ?_, ?_⟩ <;> omega

theorem word_lt (l : List Nat) (i : Nat) (h : ∀ j, l.getD j 0 < 256) :
    word l i < 2 ^ 32 := by
  unfold word
  have hp : ∀ j s, s + 8 ≤ 32 → l.getD j 0 <<< s < 2 ^ 32 := by
    intro j s hs
    have h8 : l.getD j 0 < 2 ^ 8 := by simpa using h j
    exact lt_of_lt_of_le (Nat.shiftLeft_lt h8)
      (Nat.pow_le_pow_right (by norm_num) (by omega))
  exact Nat.or_lt_two_pow (Nat.or_lt_two_pow (Nat.or_lt_two_pow
    (hp _ 24 (by norm_num)) (hp _ 16 (by norm_num))) (hp _ 8 (by norm_num)))
    (lt_of_lt_of_le (h _) (by norm_num))

theorem list_eq_of_length_16 (l : List Nat) (h : l.length = 16) :
    l = [l.getD 0 0, l.getD 1 0, l.getD 2 0, l.getD 3 0, l.getD 4 0, l.getD 5 0,
         l.getD 6 0, l.getD 7 0, l.getD 8 0, l.getD 9 0, l.getD 10 0, l.getD 11 0,
         l.getD 12 0, l.getD 13 0, l.getD 14 0, l.getD 15 0] := by
  rcases l with _ | ⟨a0, l⟩
  · simp only [List.length_nil] at h
    omega
  rcases l with _ | ⟨a1, l⟩
  · simp only [List.length_cons, List.length_nil] at h
    omega
  rcases l with _ | ⟨a2, l⟩
  · simp only [List.length_cons, List.length_nil] at h
    omega
  rcases l with _ | ⟨a3, l⟩
  · simp only [List.length_cons, List.length_nil] at h
    omega
  rcases l with _ | ⟨a4, l⟩
  · simp only [List.length_cons, List.length_nil] at h
    omega
  rcases l with _ | ⟨a5, l⟩
  · simp only [List.length_cons, List.length_nil] at h
    omega
  rcases l with _ | ⟨a6, l⟩
  · simp only [List.length_cons, List.length_nil] at h
    omega
  rcases l with _ | ⟨a7, l⟩
  · simp only [List.length_cons, List.length_nil] at h
    omega
  rcases l with _ | ⟨a8, l⟩
  · simp only [List.length_cons, List.length_nil] at h
    omega
  rcases l with _ | ⟨a9, l⟩
  · simp only [List.length_cons, List.length_nil] at h
    omega
  rcases l with _ | ⟨a10, l⟩
  · simp only [List.length_cons, List.length_nil] at h
    omega
  rcases l with _ | ⟨a11, l⟩
  · simp only [List.length_cons, List.length_nil] at h
    omega
  rcases l with _ | ⟨a12, l⟩
  · simp only [List.length_cons, List.length_nil] at h
    omega
  rcases l with _ | ⟨a13, l⟩
  · simp only [List.length_cons, List.length_nil] at h
    omega
  rcases l with _ | ⟨a14, l⟩
  · simp only [List.length_cons, List.length_nil] at h
    omega
  rcases l with _ | ⟨a15, l⟩
  · simp only [List.length_cons, List.length_nil] at h
    omega
  rcases l with _ | ⟨a16, l⟩
  · rfl
  · simp only [List.length_cons, List.length_nil] at h
    omega

theorem decryptBlock_encryptBlock (key blk : List Nat) (hb : blk.length = 16)
    (hbytes : ∀ x ∈ blk, x < 256) :
    decryptBlock key (encryptBlock key blk) = blk := by
  have hgd : ∀ j : Nat, blk.getD j 0 < 256 := by
    intro j
    rcases Nat.lt_or_ge j blk.length with hj | hj
    · rw [List.getD_eq_getElem?_getD, List.getElem?_eq_getElem hj, Option.getD_some]
      exact hbytes _ (List.getElem_mem hj)
    · rw [List.getD_eq_default _ _ hj]
      norm_num
  have g0 := hgd 0
  have g1 := hgd 1
  have g2 := hgd 2
  have g3 := hgd 3
  have g4 := hgd 4
  have g5 := hgd 5
  have g6 := hgd 6
  have g7 := hgd 7
  have g8 := hgd 8
  have g9 := hgd 9
  have g10 := hgd 10
  have g11 := hgd 11
  have g12 := hgd 12
  have g13 := hgd 13
  have g14 := hgd 14
  have g15 := hgd 15
  rw [list_eq_of_length_16 blk hb]
  generalize blk.getD 0 0 = b0 at g0 ⊢
  generalize blk.getD 1 0 = b1 at g1 ⊢
  generalize blk.getD 2 0 = b2 at g2 ⊢
  generalize blk.getD 3 0 = b3 at g3 ⊢
  generalize blk.getD 4 0 = b4 at g4 ⊢
  generalize blk.getD 5 0 = b5 at g5 ⊢
  generalize blk.getD 6 0 = b6 at g6 ⊢
  generalize blk.getD 7 0 = b7 at g7 ⊢
  generalize blk.getD 8 0 = b8 at g8 ⊢
  generalize blk.getD 9 0 = b9 at g9 ⊢
  generalize blk.getD 10 0 = b10 at g10 ⊢
  generalize blk.getD 11 0 = b11 at g11 ⊢
  generalize blk.getD 12 0 = b12 at g12 ⊢
  generalize blk.getD 13 0 = b13 at g13 ⊢
  generalize blk.getD 14 0 = b14 at g14 ⊢
  generalize blk.getD 15 0 = b15 at g15 ⊢
  have hL : ∀ j : Nat,
      ([b0, b1, b2, b3, b4, b5, b6, b7, b8, b9, b10, b11, b12, b13, b14, b15].getD j 0) < 256 := by
    intro j
    rcases Nat.lt_or_ge j 16 with hj | hj
    · interval_cases j <;> simpa
    · rw [List.getD_eq_default _ _ (by simpa using hj)]
      norm_num
  unfold decryptBlock encryptBlock
  rw [encryptBlockT_eq_foldl, decryptBlockT_eq_foldl]
  have hF := foldl_rounds_lt tFunction tFunction_lt
    ((List.range 32).map (fun i => (generateRoundKeysT tFunction key).getD i 0))
    (wordsOf [b0, b1, b2, b3, b4, b5, b6, b7, b8, b9, b10, b11, b12, b13, b14, b15])
    (word_lt _ 0 hL) (word_lt _ 1 hL) (word_lt _ 2 hL) (word_lt _ 3 hL)
  rw [wordsOf_bytesOut _ hF.1 hF.2.1 hF.2.2.1 hF.2.2.2,
    foldl_rounds_rev tFunction _ _]
  exact bytesOut_wordsOf b0 b1 b2 b3 b4 b5 b6 b7 b8 b9 b10 b11 b12 b13 b14 b15
    g0 g1 g2 g3 g4 g5 g6 g7 g8 g9 g10 g11 g12 g13 g14 g15

/-! ### Claim theorems for the block cipher -/

/-- C1: for every 32-bit input word the T-table accelerated T function
returns the same value as the basic T function, and consequently the
(intended) accelerated single-block encryption agrees bit for bit with basic
single-block encryption for every key and block.  (In the Python code this
equivalence is unobservable: `SM4Optimized.__init__` raises `AttributeError`
for every key, because the base constructor's call to
`_generate_round_keys` dispatches to the overridden `_t_function` before
`_precompute_tables` has created `self.T_table`.) -/
theorem c1_t_table_equivalence :
    (∀ x, tFunctionOpt x = tFunction x) ∧
      ∀ key blk, encryptBlockOpt key blk = encryptBlock key blk := by
  have hfun : tFunctionOpt = tFunction := funext tFunctionOpt_eq_tFunction
  refine ⟨tFunctionOpt_eq_tFunction, fun key blk => ?_⟩
  unfold encryptBlockOpt encryptBlock
  rw [hfun]

/-- C2: evaluation of the code at the standard known-answer vectors.  With
key = plaintext = `0123456789abcdeffedcba9876543210` both the plain and the
T-table core produce `3bf9e2bf4b0c2e87bdc23ad00c92ce95`, not the standard
ciphertext `681edf34d206965e86b3e94f536e4246`; with key
`000102030405060708090a0b0c0d0e0f` and plaintext
`00112233445566778899aabbccddeeff` the code produces
`ac20181938a7e0b54519b198cb1f0538`, not `595298c7c6fd271f0a8c988149b7ef62`
(the code's substitution table deviates from the standard). -/
theorem c2_known_answer_vectors_fail :
    encryptBlock
        [0x01, 0x23, 0x45, 0x67, 0x89, 0xab, 0xcd, 0xef,
         0xfe, 0xdc, 0xba, 0x98, 0x76, 0x54, 0x32, 0x10]
        [0x01, 0x23, 0x45, 0x67, 0x89, 0xab, 0xcd, 0xef,
         0xfe, 0xdc, 0xba, 0x98, 0x76, 0x54, 0x32, 0x10]
      = [0x3b, 0xf9, 0xe2, 0xbf, 0x4b, 0x0c, 0x2e, 0x87,
         0xbd, 0xc2, 0x3a, 0xd0, 0x0c, 0x92, 0xce, 0x95] ∧
    encryptBlockOpt
        [0x01, 0x23, 0x45, 0x67, 0x89, 0xab, 0xcd, 0xef,
         0xfe, 0xdc, 0xba, 0x98, 0x76, 0x54, 0x32, 0x10]
        [0x01, 0x23, 0x45, 0x67, 0x89, 0xab, 0xcd, 0xef,
         0xfe, 0xdc, 0xba, 0x98, 0x76, 0x54, 0x32, 0x10]
      = [0x3b, 0xf9, 0xe2, 0xbf, 0x4b, 0x0c, 0x2e, 0x87,
         0xbd, 0xc2, 0x3a, 0xd0, 0x0c, 0x92, 0xce, 0x95] ∧
    encryptBlock
        [0x00, 0x01, 0x02, 0x03, 0x04, 0x05, 0x06, 0x07,
         0x08, 0x09, 0x0a, 0x0b, 0x0c, 0x0d, 0x0e, 0x0f]
        [0x00, 0x11, 0x22, 0x33, 0x44, 0x55, 0x66, 0x77,
         0x88, 0x99, 0xaa, 0xbb, 0xcc, 0xdd, 0xee, 0xff]
      = [0xac, 0x20, 0x18, 0x19, 0x38, 0xa7, 0xe0, 0xb5,
         0x45, 0x19, 0xb1, 0x98, 0xcb, 0x1f, 0x05, 0x38] ∧
    ([0x3b, 0xf9, 0xe2, 0xbf, 0x4b, 0x0c, 0x2e, 0x87,
      0xbd, 0xc2, 0x3a, 0xd0, 0x0c, 0x92, 0xce, 0x95] : List Nat)
      ≠ [0x68, 0x1e, 0xdf, 0x34, 0xd2, 0x06, 0x96, 0x5e,
         0x86, 0xb3, 0xe9, 0x4f, 0x53, 0x6e, 0x42, 0x46] ∧
    ([0xac, 0x20, 0x18, 0x19, 0x38, 0xa7, 0xe0, 0xb5,
      0x45, 0x19, 0xb1, 0x98, 0xcb, 0x1f, 0x05, 0x38] : List Nat)
      ≠ [0x59, 0x52, 0x98, 0xc7, 0xc6, 0xfd, 0x27, 0x1f,
         0x0a, 0x8c, 0x98, 0x81, 0x49, 0xb7, 0xef, 0x62] :=
  ⟨rfl, rfl, rfl, by decide, by decide⟩

/-- C3: for every key of length 16 and every 16-byte block,
`decrypt_block (encrypt_block block) = block` under the same key. -/
theorem c3_decrypt_encrypt_roundtrip (key blk : List Nat) (hk : key.length = 16)
    (hb : blk.length = 16) (hbytes : ∀ x ∈ blk, x < 256) :
    decryptBlock key (encryptBlock key blk) = blk :=
  decryptBlock_encryptBlock key blk hb hbytes

/-- Witness for C3 at a concrete key and block. -/
theorem c3_decrypt_encrypt_roundtrip_witness :
    ([0x01, 0x23, 0x45, 0x67, 0x89, 0xab, 0xcd, 0xef,
      0xfe, 0xdc, 0xba, 0x98, 0x76, 0x54, 0x32, 0x10] : List Nat).length = 16 ∧
    ([0xde, 0xad, 0xbe, 0xef, 0x00, 0x11, 0x22, 0x33,
      0x44, 0x55, 0x66, 0x77, 0x88, 0x99, 0xaa, 0xbb] : List Nat).length = 16 ∧
    (∀ x ∈ ([0xde, 0xad, 0xbe, 0xef, 0x00, 0x11, 0x22, 0x33,
      0x44, 0x55, 0x66, 0x77, 0x88, 0x99, 0xaa, 0xbb] : List Nat), x < 256) ∧
    decryptBlock
      [0x01, 0x23, 0x45, 0x67, 0x89, 0xab, 0xcd, 0xef,
       0xfe, 0xdc, 0xba, 0x98, 0x76, 0x54, 0x32, 0x10]
      (encryptBlock
        [0x01, 0x23, 0x45, 0x67, 0x89, 0xab, 0xcd, 0xef,
         0xfe, 0xdc, 0xba, 0x98, 0x76, 0x54, 0x32, 0x10]
        [0xde, 0xad, 0xbe, 0xef, 0x00, 0x11, 0x22, 0x33,
         0x44, 0x55, 0x66, 0x77, 0x88, 0x99, 0xaa, 0xbb])
      = [0xde, 0xad, 0xbe, 0xef, 0x00, 0x11, 0x22, 0x33,
         0x44, 0x55, 0x66, 0x77, 0x88, 0x99, 0xaa, 0xbb] :=
  ⟨by decide, by decide, by decide,
    c3_decrypt_encrypt_roundtrip _ _ (by decide) (by decide) (by decide)⟩

/-- C9 counterexample: in this code the transform invoked inside
`_generate_round_keys` *is* the round function's `_t_function` (the same
resolved method, rotations 2, 10, 18, 24), so the two functions are equal and
no 32-bit word distinguishes them — refuting the claim that the key schedule
applies a distinct linear transform. -/
theorem c9_counterexample_transforms_identical : roundKeyTransform = tFunction := rfl

/-- C9 (amended): the code's key schedule reuses the cipher's round transform
unchanged — for every word the two coincide, and the generated round keys are
those obtained with the round function's own T; the standard's distinct L'
(rotations 13, 23) is not implemented. -/
theorem c9_key_schedule_reuses_round_transform :
    (∀ x, roundKeyTransform x = tFunction x) ∧
      ∀ key, generateRoundKeysT roundKeyTransform key = generateRoundKeysT tFunction key :=
  ⟨fun _ => rfl, fun _ => rfl⟩

/-! ### GCM supporting lemmas -/

theorem encryptBlockT_length (t : Nat → Nat) (rks blk : List Nat) :
    (encryptBlockT t rks blk).length = 16 := by
  unfold encryptBlockT bytesOut
  rfl

theorem ghash_length (authData ciphertext H : List Nat) :
    (ghash authData ciphertext H).length = 16 := by
  unfold ghash toBytesBE
  simp

theorem zipWith_xor_cancel (a : List Nat) : ∀ b : List Nat, a.length ≤ b.length →
    List.zipWith (fun x y => x ^^^ y) (List.zipWith (fun x y => x ^^^ y) a b) b = a := by
  induction a with
  | nil => intro b h; simp
  | cons x xs ih =>
    intro b h
    cases b with
    | nil => simp at h
    | cons y ys =>
      simp only [List.zipWith_cons_cons, Nat.xor_cancel_right, List.cons.injEq, true_and]
      exact ih ys (by simpa using h)

theorem constantTimeCompare_self (a : List Nat) : constantTimeCompare a a = true := by
  unfold constantTimeCompare
  have hz : List.zipWith (fun x y => x ^^^ y) a a = List.replicate a.length 0 := by
    induction a with
    | nil => rfl
    | cons x xs ih => simp [ih, List.replicate_succ]
  have hf : ∀ n, (List.replicate n (0 : Nat)).foldl (fun r z => r ||| z) 0 = 0 := by
    intro n
    induction n with
    | zero => rfl
    | succ n ih => simpa [List.replicate_succ] using ih
  simp [hz, hf]

theorem ctrLoop_nil (rks c : List Nat) : ctrLoop rks c [] = .ok [] := by
  rw [ctrLoop]
  simp

theorem ctrLoop_invol (rks : List Nat) :
    ∀ n (data c out : List Nat), data.length ≤ n →
      ctrLoop rks c data = .ok out → ctrLoop rks c out = .ok data := by
  intro n
  induction n with
  | zero =>
    intro data c out h hc
    have hdn : data = [] := List.eq_nil_of_length_eq_zero (by omega)
    subst hdn
    rw [ctrLoop_nil] at hc
    simp only [Except.ok.injEq] at hc
    subst hc
    exact ctrLoop_nil rks c
  | succ n ih =>
    intro data c out h hc
    by_cases hd : data = []
    · subst hd
      rw [ctrLoop_nil] at hc
      simp only [Except.ok.injEq] at hc
      subst hc
      exact ctrLoop_nil rks c
    · rw [ctrLoop] at hc
      rw [dif_neg hd] at hc
      dsimp only at hc
      rcases hinc : incrementCounter c with e | c2
      · rw [hinc] at hc
        simp at hc
      · rw [hinc] at hc
        dsimp only at hc
        rcases hrest : ctrLoop rks c2 (data.drop 16) with e | rest
        · rw [hrest] at hc
          simp at hc
        · rw [hrest] at hc
          dsimp only at hc
          simp only [Except.ok.injEq] at hc
          subst hc
          have hkslen : (encryptBlockT tFunctionOpt rks c).length = 16 :=
            encryptBlockT_length _ _ _
          have hdlen : 0 < data.length := List.length_pos.mpr hd
          have hoblen : (List.zipWith (fun b k => b ^^^ k) (data.take 16)
              (encryptBlockT tFunctionOpt rks c)).length = min data.length 16 := by
            simp [List.length_zipWith, hkslen]
            omega
          have hih := ih (data.drop 16) c2 rest (by simp [List.length_drop]; omega) hrest
          rcases Nat.lt_or_ge data.length 16 with hlen | hlen
          · -- short final chunk: drop 16 = [], rest = []
            have hdrop : data.drop 16 = [] := List.drop_eq_nil_of_le (by omega)
            rw [hdrop, ctrLoop_nil] at hrest
            simp only [Except.ok.injEq] at hrest
            subst hrest
            rw [List.append_nil]
            rw [ctrLoop]
            have hob : (List.zipWith (fun b k => b ^^^ k) (data.take 16)
                (encryptBlockT tFunctionOpt rks c)) ≠ [] := by
              intro hnil
              rw [hnil] at hoblen
              simp at hoblen
              omega
            rw [dif_neg hob]
            dsimp only
            rw [hinc]
            have htake : (List.zipWith (fun b k => b ^^^ k) (data.take 16)
                (encryptBlockT tFunctionOpt rks c)).take 16
                = List.zipWith (fun b k => b ^^^ k) (data.take 16)
                  (encryptBlockT tFunctionOpt rks c) := by
              apply List.take_of_length_le
              omega
            have hdrop2 : (List.zipWith (fun b k => b ^^^ k) (data.take 16)
                (encryptBlockT tFunctionOpt rks c)).drop 16 = [] := by
              apply List.drop_eq_nil_of_le
              omega
            dsimp only
            rw [htake, hdrop2, ctrLoop_nil]
            dsimp only
            rw [zipWith_xor_cancel (data.take 16) _ (by simp [hkslen] <;> omega)]
            rw [List.append_nil, List.take_of_length_le (by omega)]
          · -- full chunk
            have hoblen16 : (List.zipWith (fun b k => b ^^^ k) (data.take 16)
                (encryptBlockT tFunctionOpt rks c)).length = 16 := by omega
            rw [ctrLoop]
            have hob : (List.zipWith (fun b k => b ^^^ k) (data.take 16)
                (encryptBlockT tFunctionOpt rks c)) ++ rest ≠ [] := by
              intro hnil
              rcases List.append_eq_nil.mp hnil with ⟨h1, _⟩
              rw [h1] at hoblen16
              simp at hoblen16
            rw [dif_neg hob]
            dsimp only
            rw [hinc]
            have htake : ((List.zipWith (fun b k => b ^^^ k) (data.take 16)
                (encryptBlockT tFunctionOpt rks c)) ++ rest).take 16
                = List.zipWith (fun b k => b ^^^ k) (data.take 16)
                  (encryptBlockT tFunctionOpt rks c) := by
              rw [List.take_append_eq_append_take, List.take_of_length_le (by omega),
                hoblen16]
              simp
            have hdrop : ((List.zipWith (fun b k => b ^^^ k) (data.take 16)
                (encryptBlockT tFunctionOpt rks c)) ++ rest).drop 16 = rest := by
              rw [List.drop_append_eq_append_drop, List.drop_eq_nil_of_le (by omega),
                hoblen16]
              simp
            dsimp only
            rw [htake, hdrop, hih]
            dsimp only
            rw [zipWith_xor_cancel (data.take 16) _ (by simp [hkslen])]
            rw [List.take_append_drop]

theorem ctrLoop_ok_take (rks c data out : List Nat) (hd : data ≠ [])
    (h : ctrLoop rks c data = .ok out) :
    out.take 16 = List.zipWith (fun b k => b ^^^ k) (data.take 16)
      (encryptBlockT tFunctionOpt rks c) := by
  rw [ctrLoop] at h
  rw [dif_neg hd] at h
  dsimp only at h
  rcases hinc : incrementCounter c with e | c2
  · rw [hinc] at h
    simp at h
  · rw [hinc] at h
    dsimp only at h
    rcases hrest : ctrLoop rks c2 (data.drop 16) with e | rest
    · rw [hrest] at h
      simp at h
    · rw [hrest] at h
      dsimp only at h
      simp only [Except.ok.injEq] at h
      subst h
      have hkslen := encryptBlockT_length tFunctionOpt rks c
      have hdlen : 0 < data.length := List.length_pos.mpr hd
      have hoblen : (List.zipWith (fun b k => b ^^^ k) (data.take 16)
          (encryptBlockT tFunctionOpt rks c)).length = min data.length 16 := by
        simp [List.length_zipWith, hkslen]
        omega
      rcases Nat.lt_or_ge data.length 16 with hlen | hlen
      · have hdrop : data.drop 16 = [] := List.drop_eq_nil_of_le (by omega)
        rw [hdrop, ctrLoop_nil] at hrest
        simp only [Except.ok.injEq] at hrest
        subst hrest
        rw [List.append_nil]
        apply List.take_of_length_le
        omega
      · rw [List.take_append_eq_append_take, List.take_of_length_le (by omega), hoblen]
        simp
        omega

theorem toBlocks_nil : toBlocks [] = [] := by
  rw [toBlocks]
  simp

theorem toBlocks_short (data : List Nat) (h : data ≠ []) (h16 : data.length ≤ 16) :
    toBlocks data = [bytesToNatBE (padBlock data)] := by
  rw [toBlocks, dif_neg h, List.drop_eq_nil_of_le h16, toBlocks_nil,
    List.take_of_length_le h16]

theorem ctrLoop_short (rks c data : List Nat) (h : data ≠ []) (h16 : data.length ≤ 16)
    (c2 : List Nat) (hinc : incrementCounter c = .ok c2) :
    ctrLoop rks c data
      = .ok (List.zipWith (fun b k => b ^^^ k) data (encryptBlockT tFunctionOpt rks c)) := by
  rw [ctrLoop, dif_neg h]
  dsimp only
  rw [hinc]
  dsimp only
  rw [List.drop_eq_nil_of_le h16, ctrLoop_nil]
  dsimp only
  rw [List.take_of_length_le h16, List.append_nil]

/-! ### Claim theorems for GCM -/

/-- C4: the claimed encrypt-then-decrypt round trip can never happen in this
program, for a nonce of *any* length: for every 16-byte key and every nonce,
GCM session construction itself raises `AttributeError`, because
`SM4GCM.__init__` builds an `SM4Optimized`, whose constructor crashes
reading `self.T_table` during round-key generation.  The `encrypt`/`decrypt`
method bodies themselves are mutually inverse: over any session state with
the default 16-byte tag length, whatever a successful encryption produces
decrypts back to exactly the original plaintext — the round trip fails only
because no session is ever constructed. -/
theorem c4_gcm_roundtrip_unreachable :
    (∀ (key nonce : List Nat) (tagLength : Nat), key.length = 16 →
        gcmInit key nonce tagLength = .error .attributeError) ∧
    (∀ (st : GCMState) (pt ad ct tag : List Nat), st.tagLength = 16 →
        gcmEncrypt st pt ad = .ok (ct, tag) →
        gcmDecrypt st ct tag ad = .ok pt) := by
  constructor
  · intro key nonce tagLength hk
    unfold gcmInit
    rw [if_neg (by omega)]
  · intro st pt ad ct tag htl henc
    unfold gcmEncrypt at henc
    rcases hctr : ctrLoop st.rks st.initialCounter pt with e | ct0
    · rw [hctr] at henc
      simp at henc
    · rw [hctr] at henc
      dsimp only at henc
      simp only [Except.ok.injEq, Prod.mk.injEq] at henc
      obtain ⟨hct, htag⟩ := henc
      subst hct
      subst htag
      have hglen := ghash_length ad ct0 st.H
      have htelen := encryptBlockT_length tFunctionOpt st.rks st.initialCounter
      have hziplen : (List.zipWith (fun t te => t ^^^ te) (ghash ad ct0 st.H)
          (encryptBlockT tFunctionOpt st.rks st.initialCounter)).length = 16 := by
        simp [List.length_zipWith, hglen, htelen]
      have htake : (List.zipWith (fun t te => t ^^^ te) (ghash ad ct0 st.H)
          (encryptBlockT tFunctionOpt st.rks st.initialCounter)).take st.tagLength
          = List.zipWith (fun t te => t ^^^ te) (ghash ad ct0 st.H)
            (encryptBlockT tFunctionOpt st.rks st.initialCounter) := by
        rw [htl]
        exact List.take_of_length_le (by omega)
      have hcond : ¬(((List.zipWith (fun t te => t ^^^ te) (ghash ad ct0 st.H)
          (encryptBlockT tFunctionOpt st.rks st.initialCounter)).take st.tagLength).length
          ≠ st.tagLength) := by
        rw [htake, hziplen, htl]
        omega
      unfold gcmDecrypt
      rw [if_neg hcond]
      dsimp only
      rw [htake, zipWith_xor_cancel (ghash ad ct0 st.H) _ (by omega),
        if_neg (show ¬((ghash ad ct0 st.H).length < 16) by omega)]
      simp only [constantTimeCompare_self, if_true]
      exact ctrLoop_invol st.rks pt.length pt st.initialCounter ct0 le_rfl hctr

set_option maxRecDepth 100000 in
/-- Witness for C4: construction with the zero key and a 12-byte zero nonce
already fails with AttributeError, while the method bodies do round-trip at
a concrete session state (the round keys and hash subkey the intended
T-table cipher would derive from the zero key), plaintext `[1, 2, 3]` and
the tag produced by encryption. -/
theorem c4_gcm_roundtrip_unreachable_witness :
    gcmInit (List.replicate 16 0) (List.replicate 12 0) 16
        = .error .attributeError ∧
    gcmDecrypt
      ⟨[336214561, 625925088, 3274181036, 2526748382, 3056634290, 2489881663,
        1201450978, 1370683199, 179990303, 1458710934, 2356685234, 4098415462,
        1894660844, 2738175961, 2193916652, 355497133, 2868123216, 138173639,
        3243328467, 3016387283, 860597771, 68401786, 312883655, 3331988702,
        1243271114, 3852856193, 1237378469, 1151445863, 3308550750, 3639005766,
        2815932824, 3158916273],
       [0, 0, 0, 0, 0, 0, 0, 0, 0, 0, 0, 0], 16,
       [0, 0, 0, 0, 0, 0, 0, 0, 0, 0, 0, 0, 0, 0, 0, 1],
       [191, 132, 253, 66, 8, 68, 100, 212, 70, 37, 216, 153, 159, 137, 63, 221]⟩
      [194, 209, 224]
      [172, 15, 100, 244, 198, 165, 169, 163, 128, 55, 242, 57, 16, 1, 103, 221]
      [] = .ok [1, 2, 3] :=
  ⟨c4_gcm_roundtrip_unreachable.1 (List.replicate 16 0) (List.replicate 12 0) 16
    (by decide),
   c4_gcm_roundtrip_unreachable.2 _ [1, 2, 3] [] _ _ rfl
    (by
      have hctr : ctrLoop
          [336214561, 625925088, 3274181036, 2526748382, 3056634290, 2489881663,
           1201450978, 1370683199, 179990303, 1458710934, 2356685234, 4098415462,
           1894660844, 2738175961, 2193916652, 355497133, 2868123216, 138173639,
           3243328467, 3016387283, 860597771, 68401786, 312883655, 3331988702,
           1243271114, 3852856193, 1237378469, 1151445863, 3308550750, 3639005766,
           2815932824, 3158916273]
          [0, 0, 0, 0, 0, 0, 0, 0, 0, 0, 0, 0, 0, 0, 0, 1] [1, 2, 3]
          = .ok [194, 209, 224] :=
        (ctrLoop_short _ [0, 0, 0, 0, 0, 0, 0, 0, 0, 0, 0, 0, 0, 0, 0, 1]
          [1, 2, 3] (by decide) (by decide)
          [0, 0, 0, 0, 0, 0, 0, 0, 0, 0, 0, 0, 0, 0, 0, 2] rfl).trans (by rfl)
      have ht3 : toBlocks [194, 209, 224]
          = [bytesToNatBE (padBlock [194, 209, 224])] :=
        toBlocks_short _ (by decide) (by decide)
      unfold gcmEncrypt
      dsimp only
      rw [hctr]
      dsimp only
      simp only [ghash, toBlocks_nil, ht3]
      rfl)⟩

/-- C5: when the constant-time tag comparison fails, `SM4GCM.decrypt` returns
only the authentication error — no decrypted bytes are produced (the CTR
decryption branch is the untaken `then` branch of the comparison). -/
theorem c5_auth_failure_no_plaintext (st : GCMState) (ct tag ad : List Nat)
    (hlen : tag.length = st.tagLength)
    (hcmp : constantTimeCompare
        (let tagDecrypted := List.zipWith (fun t te => t ^^^ te) tag
            (encryptBlockT tFunctionOpt st.rks st.initialCounter)
         if tagDecrypted.length < 16
           then tagDecrypted ++ List.replicate (16 - tagDecrypted.length) 0
           else tagDecrypted)
        (ghash ad ct st.H) = false) :
    gcmDecrypt st ct tag ad = .error .authenticationFailure ∧
      ∀ pt, gcmDecrypt st ct tag ad ≠ .ok pt := by
  have hmain : gcmDecrypt st ct tag ad = .error .authenticationFailure := by
    unfold gcmDecrypt
    rw [if_neg (by omega)]
    dsimp only
    dsimp only at hcmp
    rw [if_neg (by rw [hcmp]; simp)]
  refine ⟨hmain, fun pt hpt => ?_⟩
  rw [hmain] at hpt
  exact Except.noConfusion hpt

set_option maxRecDepth 100000 in
/-- Witness for C5 at a concrete session, empty ciphertext and an all-zero
16-byte tag (whose comparison fails). -/
theorem c5_auth_failure_no_plaintext_witness :
    gcmDecrypt
      ⟨[336214561, 625925088, 3274181036, 2526748382, 3056634290, 2489881663,
        1201450978, 1370683199, 179990303, 1458710934, 2356685234, 4098415462,
        1894660844, 2738175961, 2193916652, 355497133, 2868123216, 138173639,
        3243328467, 3016387283, 860597771, 68401786, 312883655, 3331988702,
        1243271114, 3852856193, 1237378469, 1151445863, 3308550750, 3639005766,
        2815932824, 3158916273],
       [0, 0, 0, 0, 0, 0, 0, 0, 0, 0, 0, 0], 16,
       [0, 0, 0, 0, 0, 0, 0, 0, 0, 0, 0, 0, 0, 0, 0, 1],
       [191, 132, 253, 66, 8, 68, 100, 212, 70, 37, 216, 153, 159, 137, 63, 221]⟩
      [] (List.replicate 16 0) [] = .error .authenticationFailure :=
  (c5_auth_failure_no_plaintext _ [] (List.replicate 16 0) [] (by decide)
    (by
      dsimp only
      simp only [ghash, toBlocks_nil]
      decide)).1

theorem bytesToNatBE_toBytesBE4 (n : Nat) (h : n < 2 ^ 32) :
    bytesToNatBE (toBytesBE 4 n) = n := by
  have h4 : List.range 4 = [0, 1, 2, 3] := rfl
  unfold toBytesBE bytesToNatBE
  rw [h4]
  simp only [List.map_cons, List.map_nil, List.foldl_cons, List.foldl_nil]
  rw [ff_eq]
  simp only [Nat.and_pow_two_sub_one_eq_mod, Nat.shiftRight_eq_div_pow]
  norm_num
  omega

/-- C6 counterexample: a counter whose low 32 bits are `0xFFFFFFFF` does not
wrap to `0x00000000` — the increment raises `OverflowError` because
`to_bytes(4, 'big')` cannot encode `2^32`. -/
theorem c6_counterexample_no_wrap :
    incrementCounter [0, 0, 0, 0, 0, 0, 0, 0, 0, 0, 0, 0, 0xff, 0xff, 0xff, 0xff]
        = .error .overflowError ∧
      incrementCounter [0, 0, 0, 0, 0, 0, 0, 0, 0, 0, 0, 0, 0xff, 0xff, 0xff, 0xff]
        ≠ .ok [0, 0, 0, 0, 0, 0, 0, 0, 0, 0, 0, 0, 0, 0, 0, 0] := by
  refine ⟨rfl, fun h => ?_⟩
  rw [show incrementCounter [0, 0, 0, 0, 0, 0, 0, 0, 0, 0, 0, 0, 0xff, 0xff, 0xff, 0xff]
      = Except.error GCMError.overflowError from rfl] at h
  exact Except.noConfusion h

/-- C6 (amended): whenever the low 32 bits (read big-endian from bytes
12..15) are below `0xFFFFFFFF`, the increment returns the first 12 bytes
unchanged followed by the 4-byte big-endian encoding of the value plus one
(and that encoding decodes back to value + 1); at `0xFFFFFFFF` it raises
`OverflowError` instead of wrapping. -/
theorem c6_increment_adds_one (counter : List Nat)
    (h : bytesToNatBE ((counter.drop 12).take 4) + 1 < 2 ^ 32) :
    incrementCounter counter
        = .ok (counter.take 12
            ++ toBytesBE 4 (bytesToNatBE ((counter.drop 12).take 4) + 1)) ∧
      bytesToNatBE (toBytesBE 4 (bytesToNatBE ((counter.drop 12).take 4) + 1))
        = bytesToNatBE ((counter.drop 12).take 4) + 1 := by
  refine ⟨?_, bytesToNatBE_toBytesBE4 _ h⟩
  unfold incrementCounter
  rw [if_pos h]

/-- Witness for C6 at a concrete counter with low word `0x000001ff`. -/
theorem c6_increment_adds_one_witness :
    bytesToNatBE (([0, 0, 0, 0, 0, 0, 0, 0, 0, 0, 0, 0, 0, 0, 1, 255].drop 12).take 4)
        + 1 < 2 ^ 32 ∧
      (incrementCounter [0, 0, 0, 0, 0, 0, 0, 0, 0, 0, 0, 0, 0, 0, 1, 255]
          = .ok ([0, 0, 0, 0, 0, 0, 0, 0, 0, 0, 0, 0, 0, 0, 1, 255].take 12
              ++ toBytesBE 4 (bytesToNatBE
                (([0, 0, 0, 0, 0, 0, 0, 0, 0, 0, 0, 0, 0, 0, 1, 255].drop 12).take 4) + 1)) ∧
        bytesToNatBE (toBytesBE 4 (bytesToNatBE
            (([0, 0, 0, 0, 0, 0, 0, 0, 0, 0, 0, 0, 0, 0, 1, 255].drop 12).take 4) + 1))
          = bytesToNatBE
              (([0, 0, 0, 0, 0, 0, 0, 0, 0, 0, 0, 0, 0, 0, 1, 255].drop 12).take 4) + 1) :=
  ⟨by decide, c6_increment_adds_one _ (by decide)⟩

/-- C7: for every 16-byte key and every nonce whose length is not 12 bytes,
GCM session construction does not succeed with a GHASH-derived counter — it
raises `AttributeError`: the `SM4Optimized(key)` call at `sm4_gcm.py:15`
crashes first (the `T_table` read during round-key generation), and even
apart from that, `_generate_initial_counter` executes
`self._ghash(self.nonce, b'', self.H)` before `self.H` has been assigned
(line 37 versus line 28). -/
theorem c7_non12_nonce_construction_fails (key nonce : List Nat) (tl : Nat)
    (hk : key.length = 16) (hn : nonce.length ≠ 12) :
    gcmInit key nonce tl = .error .attributeError := by
  unfold gcmInit
  rw [if_neg (by omega)]

/-- Witness for C7 with the zero key and a 3-byte nonce. -/
theorem c7_non12_nonce_construction_fails_witness :
    (List.replicate 16 (0 : Nat)).length = 16 ∧
      ([1, 2, 3] : List Nat).length ≠ 12 ∧
      gcmInit (List.replicate 16 0) [1, 2, 3] 16 = .error .attributeError :=
  ⟨by decide, by decide,
    c7_non12_nonce_construction_fails _ _ 16 (by decide) (by decide)⟩

/-- C8: for every GCM session, calling decrypt with a tag whose length
differs from the configured tag length fails with the invalid-tag-length
error — the very first check of `SM4GCM.decrypt`, before the tag comparison
and before any CTR decryption. -/
theorem c8_invalid_tag_length (st : GCMState) (ct tag ad : List Nat)
    (h : tag.length ≠ st.tagLength) :
    gcmDecrypt st ct tag ad = .error .invalidTagLength := by
  unfold gcmDecrypt
  rw [if_pos h]

/-- Witness for C8 with a two-byte tag against a tag length of 16. -/
theorem c8_invalid_tag_length_witness :
    ([1, 2] : List Nat).length ≠
        (⟨[336214561, 625925088, 3274181036, 2526748382, 3056634290, 2489881663,
          1201450978, 1370683199, 179990303, 1458710934, 2356685234, 4098415462,
          1894660844, 2738175961, 2193916652, 355497133, 2868123216, 138173639,
          3243328467, 3016387283, 860597771, 68401786, 312883655, 3331988702,
          1243271114, 3852856193, 1237378469, 1151445863, 3308550750, 3639005766,
          2815932824, 3158916273],
         [0, 0, 0, 0, 0, 0, 0, 0, 0, 0, 0, 0], 16,
         [0, 0, 0, 0, 0, 0, 0, 0, 0, 0, 0, 0, 0, 0, 0, 1],
         [191, 132, 253, 66, 8, 68, 100, 212, 70, 37, 216, 153, 159, 137, 63,
          221]⟩ : GCMState).tagLength ∧
      gcmDecrypt
        ⟨[336214561, 625925088, 3274181036, 2526748382, 3056634290, 2489881663,
          1201450978, 1370683199, 179990303, 1458710934, 2356685234, 4098415462,
          1894660844, 2738175961, 2193916652, 355497133, 2868123216, 138173639,
          3243328467, 3016387283, 860597771, 68401786, 312883655, 3331988702,
          1243271114, 3852856193, 1237378469, 1151445863, 3308550750, 3639005766,
          2815932824, 3158916273],
         [0, 0, 0, 0, 0, 0, 0, 0, 0, 0, 0, 0], 16,
         [0, 0, 0, 0, 0, 0, 0, 0, 0, 0, 0, 0, 0, 0, 0, 1],
         [191, 132, 253, 66, 8, 68, 100, 212, 70, 37, 216, 153, 159, 137, 63, 221]⟩
        [] [1, 2] [] = .error .invalidTagLength :=
  ⟨by decide, c8_invalid_tag_length _ [] [1, 2] [] (by decide)⟩

/-- C10: for every session and every non-empty plaintext, when encryption
succeeds the first (up to 16) ciphertext bytes are the plaintext XORed with
`encrypt_block(initial_counter)`, and the tag is the GHASH output XORed with
that very same 16-byte block (truncated to the configured length): the CTR
payload encryption starts from the unincremented initial counter, which also
forms the tag mask. -/
theorem c10_tag_mask_equals_first_keystream (st : GCMState) (pt ad ct tag : List Nat)
    (hpt : pt ≠ []) (henc : gcmEncrypt st pt ad = .ok (ct, tag)) :
    ct.take 16 = List.zipWith (fun b k => b ^^^ k) (pt.take 16)
        (encryptBlockT tFunctionOpt st.rks st.initialCounter) ∧
      tag = (List.zipWith (fun t te => t ^^^ te) (ghash ad ct st.H)
        (encryptBlockT tFunctionOpt st.rks st.initialCounter)).take st.tagLength := by
  unfold gcmEncrypt at henc
  rcases hctr : ctrLoop st.rks st.initialCounter pt with e | ct0
  · rw [hctr] at henc
    simp at henc
  · rw [hctr] at henc
    dsimp only at henc
    simp only [Except.ok.injEq, Prod.mk.injEq] at henc
    obtain ⟨hct, htag⟩ := henc
    subst hct
    subst htag
    exact ⟨ctrLoop_ok_take _ _ _ _ hpt hctr, rfl⟩

set_option maxRecDepth 100000 in
/-- Witness for C10 at a concrete session and plaintext `[1, 2, 3]`. -/
theorem c10_tag_mask_equals_first_keystream_witness :
    ([194, 209, 224] : List Nat).take 16
        = List.zipWith (fun b k => b ^^^ k) (([1, 2, 3] : List Nat).take 16)
          (encryptBlockT tFunctionOpt
            [336214561, 625925088, 3274181036, 2526748382, 3056634290, 2489881663,
             1201450978, 1370683199, 179990303, 1458710934, 2356685234, 4098415462,
             1894660844, 2738175961, 2193916652, 355497133, 2868123216, 138173639,
             3243328467, 3016387283, 860597771, 68401786, 312883655, 3331988702,
             1243271114, 3852856193, 1237378469, 1151445863, 3308550750, 3639005766,
             2815932824, 3158916273]
            [0, 0, 0, 0, 0, 0, 0, 0, 0, 0, 0, 0, 0, 0, 0, 1]) ∧
      ([172, 15, 100, 244, 198, 165, 169, 163, 128, 55, 242, 57, 16, 1, 103, 221]
          : List Nat)
        = (List.zipWith (fun t te => t ^^^ te)
            (ghash [] [194, 209, 224]
              [191, 132, 253, 66, 8, 68, 100, 212, 70, 37, 216, 153, 159, 137, 63, 221])
            (encryptBlockT tFunctionOpt
              [336214561, 625925088, 3274181036, 2526748382, 3056634290, 2489881663,
               1201450978, 1370683199, 179990303, 1458710934, 2356685234, 4098415462,
               1894660844, 2738175961, 2193916652, 355497133, 2868123216, 138173639,
               3243328467, 3016387283, 860597771, 68401786, 312883655, 3331988702,
               1243271114, 3852856193, 1237378469, 1151445863, 3308550750, 3639005766,
               2815932824, 3158916273]
              [0, 0, 0, 0, 0, 0, 0, 0, 0, 0, 0, 0, 0, 0, 0, 1])).take 16 :=
  c10_tag_mask_equals_first_keystream
    ⟨[336214561, 625925088, 3274181036, 2526748382, 3056634290, 2489881663,
      1201450978, 1370683199, 179990303, 1458710934, 2356685234, 4098415462,
      1894660844, 2738175961, 2193916652, 355497133, 2868123216, 138173639,
      3243328467, 3016387283, 860597771, 68401786, 312883655, 3331988702,
      1243271114, 3852856193, 1237378469, 1151445863, 3308550750, 3639005766,
      2815932824, 3158916273],
     [0, 0, 0, 0, 0, 0, 0, 0, 0, 0, 0, 0], 16,
     [0, 0, 0, 0, 0, 0, 0, 0, 0, 0, 0, 0, 0, 0, 0, 1],
     [191, 132, 253, 66, 8, 68, 100, 212, 70, 37, 216, 153, 159, 137, 63, 221]⟩
    [1, 2, 3] []
    [194, 209, 224]
    [172, 15, 100, 244, 198, 165, 169, 163, 128, 55, 242, 57, 16, 1, 103, 221]
    (by decide)
    (by
      have hctr : ctrLoop
          [336214561, 625925088, 3274181036, 2526748382, 3056634290, 2489881663,
           1201450978, 1370683199, 179990303, 1458710934, 2356685234, 4098415462,
           1894660844, 2738175961, 2193916652, 355497133, 2868123216, 138173639,
           3243328467, 3016387283, 860597771, 68401786, 312883655, 3331988702,
           1243271114, 3852856193, 1237378469, 1151445863, 3308550750, 3639005766,
           2815932824, 3158916273]
          [0, 0, 0, 0, 0, 0, 0, 0, 0, 0, 0, 0, 0, 0, 0, 1] [1, 2, 3]
          = .ok [194, 209, 224] :=
        (ctrLoop_short _ [0, 0, 0, 0, 0, 0, 0, 0, 0, 0, 0, 0, 0, 0, 0, 1]
          [1, 2, 3] (by decide) (by decide)
          [0, 0, 0, 0, 0, 0, 0, 0, 0, 0, 0, 0, 0, 0, 0, 2] rfl).trans (by rfl)
      have ht3 : toBlocks [194, 209, 224]
          = [bytesToNatBE (padBlock [194, 209, 224])] :=
        toBlocks_short _ (by decide) (by decide)
      unfold gcmEncrypt
      dsimp only
      rw [hctr]
      dsimp only
      simp only [ghash, toBlocks_nil, ht3]
      rfl)
